import Mathlib

/-!
# AmazonIPRanges: a shallow embedding of `main.go`

The program fetches the published AWS IP range document, groups the ranges by
service and region, and prints either the service/region catalog or the ranges
of one service and region.

Modelling choices.
* A Go `map[string]V` is an association list with unique keys (`GoMap V`):
  `GoMap.get` is the two-valued index expression `v, ok := m[k]`, `GoMap.set`
  the assignment `m[k] = v`.
* `for k, v := range m` visits every entry once in an order the Go runtime
  picks; the order is driven here by a schedule (`GoMap.range`), a parameter of
  the run.
* The network and `encoding/json` are parameters of the run (`World`): what
  `http.Get` returned, what `ioutil.ReadAll` returned, and the decoder.
* A run of `main` is the trace of its observable events (writes to standard
  output, the HTTP request) together with how the process ended.
-/

namespace AmazonIPRanges

/-! ## Data model (main.go:14-22) -/

/-- One element of the `Prefixes` slice of the struct `amazonIPRanges`. -/
structure PrefixEntry where
  IPPrefix : String
  Region : String
  Service : String
deriving DecidableEq, Repr

/-- The struct `amazonIPRanges`. -/
structure amazonIPRanges where
  SyncToken : String
  CreateDate : String
  Prefixes : List PrefixEntry
deriving DecidableEq, Repr

/-! ## Go maps -/

/-- A Go `map[string]V`, as the list of its entries. -/
abbrev GoMap (V : Type) := List (String × V)

namespace GoMap

/-- The index expression `v, ok := m[k]`: `some v` when `ok`, `none` otherwise. -/
def get {V : Type} : GoMap V → String → Option V
  | [], _ => none
  | (k', v) :: t, k => if k' = k then some v else get t k

/-- The assignment `m[k] = v`: overwrite the entry of `k`, or add one. -/
def set {V : Type} : GoMap V → String → V → GoMap V
  | [], k, v => [(k, v)]
  | (k', v') :: t, k, v => if k' = k then (k', v) :: t else (k', v') :: set t k v

/-- The keys of the map. -/
def keys {V : Type} (m : GoMap V) : List String := m.map Prod.fst

/-- Visit the entries of a map in the order chosen by the schedule `sched`: at
each step the entry at position `k % (number of entries left)` of those not
yet visited comes next; when the schedule runs out the rest follow in storage
order. -/
def range {V : Type} : List Nat → GoMap V → List (String × V)
  | [], m => m
  | k :: ks, m =>
    match m.get? (k % m.length) with
    | some x => x :: range ks (m.eraseIdx (k % m.length))
    | none => m

end GoMap

/-! ## The two grouping passes -/

/-- One iteration of the loop of `getRanges` (main.go:122-139). -/
def getRangesStep (ranges : GoMap (GoMap (List String))) (p : PrefixEntry) :
    GoMap (GoMap (List String)) :=
  match ranges.get p.Service with
  | some service =>
    match service.get p.Region with
    | some region =>
      -- Append the IP to the range for the given region and service
      ranges.set p.Service (service.set p.Region (region ++ [p.IPPrefix]))
    | none =>
      -- First time seeing the region in this service
      ranges.set p.Service (service.set p.Region [p.IPPrefix])
  | none =>
    -- First time seeing the service
    ranges.set p.Service (GoMap.set [] p.Region [p.IPPrefix])

/-- The function `getRanges` (main.go:120-141): service, then region, to the
list of IP ranges. -/
def getRanges (a : amazonIPRanges) : GoMap (GoMap (List String)) :=
  a.Prefixes.foldl getRangesStep []

/-- The inner loop `for _, region := range val` of `printRegionServiceMap`
(main.go:94-100): is `region` already in the list. -/
def inList (val : List String) (region : String) : Bool :=
  match val with
  | [] => false
  | r :: rest => if r = region then true else inList rest region

/-- One iteration of the first loop of `printRegionServiceMap` (main.go:91-109). -/
def serviceRegionMapStep (m : GoMap (List String)) (p : PrefixEntry) :
    GoMap (List String) :=
  match m.get p.Service with
  | some val =>
    if !inList val p.Region then m.set p.Service (val ++ [p.Region]) else m
  | none => m.set p.Service [p.Region]

/-- The map `serviceRegionMap` after the first loop of `printRegionServiceMap`
(main.go:90-109). -/
def serviceRegionMap (a : amazonIPRanges) : GoMap (List String) :=
  a.Prefixes.foldl serviceRegionMapStep []

/-! ## The run of the program -/

/-- The package variable `ipRangesURL` (main.go:12). -/
def ipRangesURL : String := "https://ip-ranges.amazonaws.com/ip-ranges.json"

/-- An observable event of a run. -/
inductive Event where
  /-- The bytes one `fmt.Print`, `fmt.Println` or `fmt.Printf` call writes to
  standard output. -/
  | stdout (s : String)
  /-- The request `http.Get(url)`. -/
  | httpGet (url : String)
deriving DecidableEq, Repr

/-- How a run ends. -/
inductive Ending where
  /-- The call `os.Exit(code)`, or the return of `main` (status 0). -/
  | exit (code : Nat)
  /-- A runtime panic: the Go runtime reports it on standard error and the
  process ends with status 2. -/
  | panic (msg : String)
deriving DecidableEq, Repr

/-- A run of `main`: its events in order, and its end. -/
structure Run where
  trace : List Event
  ending : Ending
deriving DecidableEq, Repr

/-- Standard output of a trace: the writes, concatenated. -/
def stdoutOf : List Event → String
  | [] => ""
  | Event.stdout s :: t => s ++ stdoutOf t
  | Event.httpGet _ :: t => stdoutOf t

/-- The exit status of the process. -/
def Ending.status : Ending → Nat
  | Ending.exit code => code
  | Ending.panic _ => 2

/-- What `ioutil.ReadAll(r.Body)` returns: the bytes read, and the error. -/
structure Body where
  data : String
  err : Option String

/-- The part of `http.Response` the program uses. -/
structure Response where
  Body : Body

/-- What the run depends on besides the flags. -/
structure World where
  /-- The pair `(resp, err)` that `http.Get(url)` returns; `resp` is `none`
  for a nil pointer. -/
  httpGet : String → Option Response × Option String
  /-- The decoder `json.Unmarshal` into an `amazonIPRanges`. -/
  Unmarshal : String → Except String amazonIPRanges
  /-- The order in which the runtime iterates over a map. -/
  mapOrder : List Nat

/-- A value returned by a Go function, or a panic raised in it. -/
inductive Returned (α : Type) where
  | ret (a : α)
  | panic (msg : String)

/-- The message of the panic raised by a nil pointer dereference. -/
def nilDereference : String :=
  "runtime error: invalid memory address or nil pointer dereference"

/-- The function `getAmazonIPRanges` (main.go:77-86): its events, and the pair
`(*amazonIPRanges, error)` it returns. The errors of `http.Get` and of
`ioutil.ReadAll` are assigned to `_`. -/
def getAmazonIPRanges (w : World) :
    List Event × Returned (Option amazonIPRanges × Option String) :=
  ([Event.httpGet ipRangesURL],
    -- r, _ := http.Get(ipRangesURL)
    match (w.httpGet ipRangesURL).1 with
    | none => Returned.panic nilDereference -- r.Body with r == nil
    | some r =>
      -- response, _ := ioutil.ReadAll(r.Body)
      match w.Unmarshal r.Body.data with
      | Except.error err => Returned.ret (none, some err)
      | Except.ok a => Returned.ret (some a, none))

/-- The verb `%s` applied to a `[]string`. -/
def fmtStrings (l : List String) : String := "[" ++ " ".intercalate l ++ "]"

/-- The line `-----------------------`, as `fmt.Println` writes it. -/
def separator : String := "-----------------------\n"

/-- The first write of `printRegionServiceMap` (main.go:110). -/
def catalogHeader : String :=
  "Please run the application specifying -service and -region with a combination listed below:\n\n"

/-- The body of the second loop of `printRegionServiceMap` (main.go:113-115). -/
def printBlock (e : String × List String) : List Event :=
  [Event.stdout ("Service: " ++ e.1 ++ "\n"),
   Event.stdout ("Regions: " ++ fmtStrings e.2 ++ "\n"),
   Event.stdout separator]

/-- The function `printRegionServiceMap` (main.go:89-117); `order` is the
iteration order of `for service, regions := range serviceRegionMap`. -/
def printRegionServiceMap (order : List Nat) (a : amazonIPRanges) : List Event :=
  [Event.stdout catalogHeader, Event.stdout separator] ++
    (GoMap.range order (serviceRegionMap a)).flatMap printBlock

/-- The message of the flag check (main.go:33), as `fmt.Println` writes it. -/
def validationMessage : String := "Region and Service must be specified together\n"

/-- The function `main` (main.go:24-74), given the values of the flags
`-service` and `-region`. `len` of a Go string is its length in bytes. -/
def main (w : World) (service region : String) : Run :=
  if (service.utf8ByteSize = 0 ∧ region.utf8ByteSize > 0) ∨
      (service.utf8ByteSize > 0 ∧ region.utf8ByteSize = 0) then
    ⟨[Event.stdout validationMessage], Ending.exit 1⟩
  else
    match (getAmazonIPRanges w).2 with
    | Returned.panic msg => ⟨(getAmazonIPRanges w).1, Ending.panic msg⟩
    | Returned.ret (_, some err) =>
      ⟨(getAmazonIPRanges w).1 ++ [Event.stdout (err ++ "\n")], Ending.exit 1⟩
    | Returned.ret (none, none) =>
      -- amazonIPRanges.Prefixes with a nil pointer
      ⟨(getAmazonIPRanges w).1, Ending.panic nilDereference⟩
    | Returned.ret (some a, none) =>
      if service.utf8ByteSize = 0 ∧ region.utf8ByteSize = 0 then
        ⟨(getAmazonIPRanges w).1 ++ printRegionServiceMap w.mapOrder a, Ending.exit 0⟩
      else
        match (getRanges a).get service with
        | some s =>
          match s.get region with
          | some r =>
            ⟨(getAmazonIPRanges w).1 ++
              [Event.stdout ("Service: " ++ service ++ "\n"),
               Event.stdout ("Region: " ++ region ++ "\n"),
               Event.stdout "IP Ranges:\n"] ++
              r.map (fun val => Event.stdout (val ++ "\n")), Ending.exit 0⟩
          | none =>
            ⟨(getAmazonIPRanges w).1 ++
              [Event.stdout ("Region " ++ region ++ " not found\n")], Ending.exit 1⟩
        | none =>
          ⟨(getAmazonIPRanges w).1 ++
            [Event.stdout ("Service " ++ service ++ " not found\n")], Ending.exit 1⟩

/-! ## Concrete inputs used below -/

/-- The entry of the example of the specification. -/
def entryEC2 : PrefixEntry := ⟨"10.0.0.0/8", "us-east-1", "EC2"⟩

/-- A document with repeated and interleaved service/region pairs. -/
def sampleDoc : amazonIPRanges :=
  ⟨"1", "2024", [entryEC2, ⟨"1.0.0.0/8", "eu-west-1", "S3"⟩, ⟨"2.0.0.0/8", "us-east-1", "EC2"⟩,
    ⟨"3.0.0.0/8", "eu-west-1", "EC2"⟩, ⟨"10.0.0.0/8", "us-east-1", "EC2"⟩]⟩

/-- A world in which the request succeeds and the body decodes to `a`. -/
def worldOf (a : amazonIPRanges) (order : List Nat) : World :=
  ⟨fun _ => (some ⟨⟨"", none⟩⟩, none), fun _ => Except.ok a, order⟩

/-! ## Measures and descriptions used in the statements -/

/-- The specification's description of a bucket: the `IPPrefix` of the entries
whose `Service` is `s` and whose `Region` is `r`, in the order of the entries. -/
def entriesOf (es : List PrefixEntry) (s r : String) : List String :=
  (es.filter (fun e => decide (e.Service = s ∧ e.Region = r))).map PrefixEntry.IPPrefix

/-- The sum of `g` over the values of a map, entry by entry. -/
def GoMap.wsum {V : Type} (g : V → Nat) (m : GoMap V) : Nat :=
  (m.map (fun x => g x.2)).sum

/-- The sum of `f (m[s][r])` over the keys `s` of `m` and the keys `r` of
`m[s]`; an index expression of a missing key yields the zero value. -/
def sumOverKeys (f : List String → Nat) (m : GoMap (GoMap (List String))) : Nat :=
  (m.keys.map (fun s =>
    (((m.get s).getD []).keys.map (fun r => f ((((m.get s).getD []).get r).getD []))).sum)).sum

/-- One line of output for every element of the list, in order. -/
def printLines : List String → String
  | [] => ""
  | val :: rest => val ++ "\n" ++ printLines rest

/-- The catalog blocks of the specification: for every service, the line
`Service: <name>`, the line `Regions: <list>` and the separator line. -/
def catalogBlocks : List (String × List String) → String
  | [] => ""
  | (service, regions) :: rest =>
    "Service: " ++ service ++ "\n" ++ ("Regions: " ++ fmtStrings regions ++ "\n") ++
      "-----------------------\n" ++ catalogBlocks rest

/-! ## Loop invariants -/

/-- The state of `serviceRegionMap` after the entries `es` have been visited. -/
structure RegionsInv (m : GoMap (List String)) (es : List PrefixEntry) : Prop where
  nodupKeys : m.keys.Nodup
  memKeys : ∀ s, s ∈ m.keys ↔ ∃ e ∈ es, e.Service = s
  regions : ∀ s l, m.get s = some l →
    l.Nodup ∧ ∀ r, r ∈ l ↔ ∃ e ∈ es, e.Service = s ∧ e.Region = r

/-- The state of `ranges` after the entries `es` have been visited. -/
structure RangesInv (m : GoMap (GoMap (List String))) (es : List PrefixEntry) : Prop where
  nodupKeys : m.keys.Nodup
  nodupInner : ∀ s, ((m.get s).getD []).keys.Nodup
  memKeys : ∀ s, s ∈ m.keys ↔ ∃ e ∈ es, e.Service = s
  bucket : ∀ s r, ((m.get s).getD []).get r =
    if entriesOf es s r = [] then none else some (entriesOf es s r)

/-! ## Further concrete inputs -/

/-- The document without entries. -/
def emptyDoc : amazonIPRanges := ⟨"", "", []⟩

/-- A world in which `http.Get` fails: it returns a nil response and an error. -/
def worldGetFails : World :=
  ⟨fun _ => (none, some "dial tcp: connect: connection refused"),
    fun _ => Except.ok emptyDoc, []⟩

/-- A world in which reading the body fails after the bytes of an empty JSON
object have arrived. -/
def worldReadFails : World :=
  ⟨fun _ => (some ⟨⟨"\x7b\x7d", some "unexpected EOF"⟩⟩, none),
    fun b => if b = "\x7b\x7d" then Except.ok emptyDoc
      else Except.error "unexpected end of JSON input", []⟩

/-- A world in which the body does not decode. -/
def worldBadJSON : World :=
  ⟨fun _ => (some ⟨⟨"<html>", none⟩⟩, none),
    fun _ => Except.error "invalid character '<' looking for beginning of value", []⟩

/-! ## Lemmas on Go maps -/

namespace GoMap

theorem get_eq_none_iff {V : Type} (m : GoMap V) (k : String) :
    m.get k = none ↔ k ∉ m.keys := by
  induction m with
  | nil => simp [get, keys]
  | cons e t ih =>
    obtain ⟨k', v⟩ := e
    by_cases h : k' = k
    · simp [get, keys, h]
    · have ih' : get t k = none ↔ k ∉ List.map Prod.fst t := ih
      simp [get, keys, h, ih', Ne.symm h]

theorem get_isSome_iff {V : Type} (m : GoMap V) (k : String) :
    (m.get k).isSome ↔ k ∈ m.keys := by
  rw [← not_iff_not, ← get_eq_none_iff]
  cases m.get k <;> simp

theorem get_set {V : Type} (m : GoMap V) (k k' : String) (v : V) :
    (m.set k v).get k' = if k = k' then some v else m.get k' := by
  induction m with
  | nil => simp [get, set]
  | cons e t ih =>
    obtain ⟨k0, v0⟩ := e
    by_cases h : k0 = k
    · subst h
      by_cases h' : k0 = k' <;> simp [get, set, h']
    · by_cases h' : k0 = k'
      · subst h'
        simp [get, set, h, Ne.symm h]
      · simp [get, set, h, h', ih]

theorem set_of_get_none {V : Type} (m : GoMap V) (k : String) (v : V)
    (h : m.get k = none) : m.set k v = m ++ [(k, v)] := by
  induction m with
  | nil => simp [set]
  | cons e t ih =>
    obtain ⟨k0, v0⟩ := e
    by_cases hk : k0 = k
    · simp [get, hk] at h
    · simp only [get, hk, if_false] at h
      simp [set, hk, ih h]

theorem set_of_get_some {V : Type} (m : GoMap V) (k : String) (v0 v : V)
    (h : m.get k = some v0) :
    ∃ a b, m = a ++ (k, v0) :: b ∧ m.set k v = a ++ (k, v) :: b := by
  induction m with
  | nil => simp [get] at h
  | cons e t ih =>
    obtain ⟨k1, v1⟩ := e
    by_cases hk : k1 = k
    · subst hk
      simp only [get, if_true, Option.some.injEq] at h
      subst h
      exact ⟨[], t, by simp, by simp [set]⟩
    · simp only [get, hk, if_false] at h
      obtain ⟨a, b, h1, h2⟩ := ih h
      exact ⟨(k1, v1) :: a, b, by simp [h1], by simp [set, hk, h2]⟩

theorem keys_set_of_get_none {V : Type} (m : GoMap V) (k : String) (v : V)
    (h : m.get k = none) : (m.set k v).keys = m.keys ++ [k] := by
  rw [set_of_get_none m k v h]
  simp [keys]

theorem keys_set_of_get_some {V : Type} (m : GoMap V) (k : String) (v0 v : V)
    (h : m.get k = some v0) : (m.set k v).keys = m.keys := by
  obtain ⟨a, b, h1, h2⟩ := set_of_get_some m k v0 v h
  rw [h2]
  conv_rhs => rw [h1]
  simp [keys]

theorem nodup_keys_set {V : Type} (m : GoMap V) (k : String) (v : V)
    (h : m.keys.Nodup) : (m.set k v).keys.Nodup := by
  cases hg : m.get k with
  | none =>
    rw [keys_set_of_get_none m k v hg]
    have hk := (get_eq_none_iff m k).1 hg
    exact List.Nodup.append h (List.nodup_singleton k) (by simpa using hk)
  | some v0 =>
    rw [keys_set_of_get_some m k v0 v hg]
    exact h

theorem mem_keys_set {V : Type} (m : GoMap V) (k k' : String) (v : V) :
    k' ∈ (m.set k v).keys ↔ k' = k ∨ k' ∈ m.keys := by
  rw [← get_isSome_iff, ← get_isSome_iff, get_set]
  by_cases h : k = k'
  · simp [h]
  · simp [h, Ne.symm h]

theorem get_of_mem {V : Type} (m : GoMap V) (h : m.keys.Nodup) (k : String) (v : V)
    (hm : (k, v) ∈ m) : m.get k = some v := by
  induction m with
  | nil => simp at hm
  | cons e t ih =>
    obtain ⟨k0, v0⟩ := e
    simp only [keys, List.map_cons, List.nodup_cons] at h
    rcases List.mem_cons.1 hm with heq | hmem
    · cases heq
      simp [get]
    · have hne : k0 ≠ k := by
        rintro rfl
        exact h.1 (List.mem_map.2 ⟨(k0, v), hmem, rfl⟩)
      simp only [get, hne, if_false]
      exact ih h.2 hmem

theorem range_perm {V : Type} (order : List Nat) (m : GoMap V) :
    (range order m).Perm m := by
  induction order generalizing m with
  | nil => simp [range]
  | cons k ks ih =>
    simp only [range]
    cases hx : List.get? m (k % m.length) with
    | none => simp
    | some x =>
      simp only
      have hlt : k % m.length < m.length := by
        rcases List.get?_eq_some.1 hx with ⟨hl, _⟩
        exact hl
      have hget : m[k % m.length] = x := by
        rcases List.get?_eq_some.1 hx with ⟨_, hl⟩
        simpa using hl
      have h1 := ih (m.eraseIdx (k % m.length))
      have h2 : (x :: m.eraseIdx (k % m.length)).Perm m := by
        rw [← hget, List.eraseIdx_eq_take_drop_succ]
        have h3 : m = m.take (k % m.length) ++ m[k % m.length] :: m.drop (k % m.length + 1) := by
          simp
        conv_rhs => rw [h3]
        exact (List.perm_middle).symm
      exact (List.Perm.cons x h1).trans h2

end GoMap

/-! ## The service-to-regions map -/

theorem inList_iff (val : List String) (region : String) :
    inList val region = true ↔ region ∈ val := by
  induction val with
  | nil => simp [inList]
  | cons r rest ih =>
    by_cases h : r = region
    · simp [inList, h]
    · simp [inList, h, ih, Ne.symm h]

theorem regionsInv_nil : RegionsInv [] [] :=
  ⟨by simp [GoMap.keys], by simp [GoMap.keys], by simp [GoMap.get]⟩

theorem regionsInv_step (m : GoMap (List String)) (es : List PrefixEntry) (p : PrefixEntry)
    (h : RegionsInv m es) : RegionsInv (serviceRegionMapStep m p) (es ++ [p]) := by
  unfold serviceRegionMapStep
  cases hg : m.get p.Service with
  | none =>
    simp only
    have hnot : ∀ e ∈ es, e.Service ≠ p.Service := by
      intro e he heq
      have := (h.memKeys p.Service).2 ⟨e, he, heq⟩
      exact ((GoMap.get_eq_none_iff m _).1 hg) this
    refine ⟨GoMap.nodup_keys_set _ _ _ h.nodupKeys, ?_, ?_⟩
    · intro s
      rw [GoMap.mem_keys_set, h.memKeys]
      constructor
      · rintro (rfl | ⟨e, he, rfl⟩)
        · exact ⟨p, by simp, rfl⟩
        · exact ⟨e, by simp [he], rfl⟩
      · rintro ⟨e, he, rfl⟩
        rcases List.mem_append.1 he with he | he
        · exact Or.inr ⟨e, he, rfl⟩
        · simp at he
          subst he
          exact Or.inl rfl
    · intro s l hl
      rw [GoMap.get_set] at hl
      by_cases hs : p.Service = s
      · subst hs
        simp only [if_true, Option.some.injEq] at hl
        subst hl
        refine ⟨List.nodup_singleton _, ?_⟩
        intro r
        constructor
        · intro hr
          simp at hr
          subst hr
          exact ⟨p, by simp, rfl, rfl⟩
        · rintro ⟨e, he, h1, h2⟩
          rcases List.mem_append.1 he with he | he
          · exact absurd h1 (hnot e he)
          · simp at he
            subst he
            simp [h2]
      · simp only [hs, if_false] at hl
        obtain ⟨h1, h2⟩ := h.regions s l hl
        refine ⟨h1, ?_⟩
        intro r
        rw [h2]
        constructor
        · rintro ⟨e, he, h3⟩
          exact ⟨e, by simp [he], h3⟩
        · rintro ⟨e, he, h3, h4⟩
          rcases List.mem_append.1 he with he | he
          · exact ⟨e, he, h3, h4⟩
          · simp at he
            subst he
            exact absurd h3 hs
  | some val =>
    simp only
    obtain ⟨hnd, hval⟩ := h.regions p.Service val hg
    have hkey : p.Service ∈ m.keys := by
      rw [← GoMap.get_isSome_iff, hg]
      rfl
    have hmem : ∀ s, (∃ e ∈ es ++ [p], e.Service = s) ↔ ∃ e ∈ es, e.Service = s := by
      intro s
      constructor
      · rintro ⟨e, he, rfl⟩
        rcases List.mem_append.1 he with he | he
        · exact ⟨e, he, rfl⟩
        · simp at he
          subst he
          exact (h.memKeys _).1 hkey
      · rintro ⟨e, he, rfl⟩
        exact ⟨e, by simp [he], rfl⟩
    by_cases hin : inList val p.Region = true
    · simp only [hin, Bool.not_true, Bool.false_eq_true, if_false]
      have hR : p.Region ∈ val := (inList_iff _ _).1 hin
      refine ⟨h.nodupKeys, ?_, ?_⟩
      · intro s
        rw [hmem, h.memKeys]
      · intro s l hl
        obtain ⟨h1, h2⟩ := h.regions s l hl
        refine ⟨h1, ?_⟩
        intro r
        rw [h2]
        constructor
        · rintro ⟨e, he, h3⟩
          exact ⟨e, by simp [he], h3⟩
        · rintro ⟨e, he, h3, h4⟩
          rcases List.mem_append.1 he with he | he
          · exact ⟨e, he, h3, h4⟩
          · simp at he
            subst he
            subst h3
            rw [hg] at hl
            cases hl
            rw [← h4]
            exact (hval _).1 hR
    · have hin' : inList val p.Region = false := by
        cases hb : inList val p.Region
        · rfl
        · exact absurd hb hin
      simp only [hin', Bool.not_false, if_true]
      have hR : p.Region ∉ val := fun hc => hin ((inList_iff _ _).2 hc)
      refine ⟨GoMap.nodup_keys_set _ _ _ h.nodupKeys, ?_, ?_⟩
      · intro s
        rw [GoMap.mem_keys_set, hmem, ← h.memKeys]
        constructor
        · rintro (rfl | hs)
          · exact hkey
          · exact hs
        · exact Or.inr
      · intro s l hl
        rw [GoMap.get_set] at hl
        by_cases hs : p.Service = s
        · subst hs
          simp only [if_true, Option.some.injEq] at hl
          subst hl
          refine ⟨?_, ?_⟩
          · exact List.Nodup.append hnd (List.nodup_singleton _) (by simpa using hR)
          · intro r
            rw [List.mem_append, hval]
            constructor
            · rintro (⟨e, he, h3⟩ | hr)
              · exact ⟨e, by simp [he], h3⟩
              · simp at hr
                subst hr
                exact ⟨p, by simp, rfl, rfl⟩
            · rintro ⟨e, he, h3, h4⟩
              rcases List.mem_append.1 he with he | he
              · exact Or.inl ⟨e, he, h3, h4⟩
              · simp at he
                subst he
                exact Or.inr (by simp [h4])
        · simp only [hs, if_false] at hl
          obtain ⟨h1, h2⟩ := h.regions s l hl
          refine ⟨h1, ?_⟩
          intro r
          rw [h2]
          constructor
          · rintro ⟨e, he, h3⟩
            exact ⟨e, by simp [he], h3⟩
          · rintro ⟨e, he, h3, h4⟩
            rcases List.mem_append.1 he with he | he
            · exact ⟨e, he, h3, h4⟩
            · simp at he
              subst he
              exact absurd h3 hs

theorem regionsInv_foldl (es done : List PrefixEntry) (m : GoMap (List String))
    (h : RegionsInv m done) : RegionsInv (es.foldl serviceRegionMapStep m) (done ++ es) := by
  induction es generalizing m done with
  | nil => simpa using h
  | cons p t ih =>
    have := ih (done ++ [p]) (serviceRegionMapStep m p) (regionsInv_step m done p h)
    simpa using this

theorem regionsInv_serviceRegionMap (a : amazonIPRanges) :
    RegionsInv (serviceRegionMap a) a.Prefixes := by
  have := regionsInv_foldl a.Prefixes [] [] regionsInv_nil
  simpa [serviceRegionMap] using this

/-! ## The service-to-region-to-ranges map -/

theorem entriesOf_append (es : List PrefixEntry) (p : PrefixEntry) (s r : String) :
    entriesOf (es ++ [p]) s r =
      entriesOf es s r ++ (if p.Service = s ∧ p.Region = r then [p.IPPrefix] else []) := by
  by_cases h : p.Service = s ∧ p.Region = r
  · simp [entriesOf, List.filter_append, List.filter_cons, h]
  · simp [entriesOf, List.filter_append, List.filter_cons, h]

theorem entriesOf_eq_nil_iff (es : List PrefixEntry) (s r : String) :
    entriesOf es s r = [] ↔ ¬ ∃ e ∈ es, e.Service = s ∧ e.Region = r := by
  simp [entriesOf, List.filter_eq_nil_iff]

/-- The three branches of the loop body of `getRanges` as one assignment. -/
theorem getRangesStep_eq (m : GoMap (GoMap (List String))) (p : PrefixEntry) :
    getRangesStep m p =
      m.set p.Service
        (((m.get p.Service).getD []).set p.Region
          ((((m.get p.Service).getD []).get p.Region).getD [] ++ [p.IPPrefix])) := by
  unfold getRangesStep
  cases h1 : m.get p.Service with
  | none => simp [GoMap.get]
  | some service =>
    cases h2 : service.get p.Region with
    | none => simp [h2]
    | some region => simp [h2]

theorem rangesInv_nil : RangesInv [] [] :=
  ⟨by simp [GoMap.keys], by simp [GoMap.keys, GoMap.get], by simp [GoMap.keys],
    by simp [GoMap.get, entriesOf]⟩

theorem rangesInv_step (m : GoMap (GoMap (List String))) (es : List PrefixEntry)
    (p : PrefixEntry) (h : RangesInv m es) : RangesInv (getRangesStep m p) (es ++ [p]) := by
  rw [getRangesStep_eq]
  have hl0 : (((m.get p.Service).getD []).get p.Region).getD [] = entriesOf es p.Service p.Region := by
    rw [h.bucket]
    by_cases he : entriesOf es p.Service p.Region = []
    · simp [he]
    · simp [he]
  rw [hl0]
  refine ⟨GoMap.nodup_keys_set _ _ _ h.nodupKeys, ?_, ?_, ?_⟩
  · intro s
    rw [GoMap.get_set]
    by_cases hs : p.Service = s
    · simp only [hs, if_true, Option.getD_some]
      exact GoMap.nodup_keys_set _ _ _ (h.nodupInner s)
    · simp only [hs, if_false]
      exact h.nodupInner s
  · intro s
    rw [GoMap.mem_keys_set, h.memKeys]
    constructor
    · rintro (rfl | ⟨e, he, rfl⟩)
      · exact ⟨p, by simp, rfl⟩
      · exact ⟨e, by simp [he], rfl⟩
    · rintro ⟨e, he, rfl⟩
      rcases List.mem_append.1 he with he | he
      · exact Or.inr ⟨e, he, rfl⟩
      · simp at he
        subst he
        exact Or.inl rfl
  · intro s r
    rw [GoMap.get_set, entriesOf_append]
    by_cases hs : p.Service = s
    · subst hs
      simp only [if_true, Option.getD_some, true_and]
      rw [GoMap.get_set]
      by_cases hr : p.Region = r
      · subst hr
        simp
      · simp only [hr, if_false, List.append_nil]
        exact h.bucket _ _
    · simp only [hs, if_false, false_and, List.append_nil]
      exact h.bucket _ _

theorem rangesInv_foldl (es done : List PrefixEntry) (m : GoMap (GoMap (List String)))
    (h : RangesInv m done) : RangesInv (es.foldl getRangesStep m) (done ++ es) := by
  induction es generalizing m done with
  | nil => simpa using h
  | cons p t ih =>
    have := ih (done ++ [p]) (getRangesStep m p) (rangesInv_step m done p h)
    simpa using this

theorem rangesInv_getRanges (a : amazonIPRanges) :
    RangesInv (getRanges a) a.Prefixes := by
  have := rangesInv_foldl a.Prefixes [] [] rangesInv_nil
  simpa [getRanges] using this

/-! ## Totals over the buckets -/

namespace GoMap

theorem map_keys_get {V β : Type} (m : GoMap V) (h : m.keys.Nodup) (g : Option V → β) :
    m.keys.map (fun k => g (m.get k)) = m.map (fun x => g (some x.2)) := by
  unfold keys
  rw [List.map_map]
  apply List.map_congr_left
  intro x hx
  simp [get_of_mem m h x.1 x.2 hx]

theorem wsum_set_of_get_none {V : Type} (g : V → Nat) (m : GoMap V) (k : String) (v : V)
    (h : m.get k = none) : wsum g (m.set k v) = wsum g m + g v := by
  rw [set_of_get_none m k v h]
  simp [wsum]

theorem wsum_set_of_get_some {V : Type} (g : V → Nat) (m : GoMap V) (k : String) (v0 v : V)
    (h : m.get k = some v0) : wsum g (m.set k v) + g v0 = wsum g m + g v := by
  obtain ⟨a, b, h1, h2⟩ := set_of_get_some m k v0 v h
  rw [h2]
  conv_rhs => rw [h1]
  simp [wsum]
  omega

end GoMap

theorem sumOverKeys_eq_wsum (f : List String → Nat) (m : GoMap (GoMap (List String)))
    (es : List PrefixEntry) (h : RangesInv m es) :
    sumOverKeys f m = GoMap.wsum (GoMap.wsum f) m := by
  unfold sumOverKeys
  rw [GoMap.map_keys_get m h.nodupKeys (fun o =>
    (((o.getD []).keys.map (fun r => f ((((o.getD []).get r).getD [])))).sum))]
  unfold GoMap.wsum
  congr 1
  apply List.map_congr_left
  intro x hx
  have hget : m.get x.1 = some x.2 := GoMap.get_of_mem m h.nodupKeys x.1 x.2 hx
  have hnd : x.2.keys.Nodup := by
    have := h.nodupInner x.1
    rw [hget] at this
    simpa using this
  simp only [Option.getD_some]
  rw [GoMap.map_keys_get x.2 hnd (fun o => f (o.getD []))]
  simp

theorem wsum_getRangesStep (f : List String → Nat)
    (hf : ∀ l x, f (l ++ [x]) = f l + f [x])
    (m : GoMap (GoMap (List String))) (p : PrefixEntry) :
    GoMap.wsum (GoMap.wsum f) (getRangesStep m p) =
      GoMap.wsum (GoMap.wsum f) m + f [p.IPPrefix] := by
  unfold getRangesStep
  cases h1 : m.get p.Service with
  | none =>
    simp only
    rw [GoMap.wsum_set_of_get_none _ _ _ _ h1]
    simp [GoMap.set, GoMap.wsum]
  | some service =>
    cases h2 : service.get p.Region with
    | none =>
      simp only [h2]
      have e1 := GoMap.wsum_set_of_get_some (GoMap.wsum f) m p.Service service
        (service.set p.Region [p.IPPrefix]) h1
      have e2 := GoMap.wsum_set_of_get_none f service p.Region [p.IPPrefix] h2
      omega
    | some region =>
      simp only [h2]
      have e1 := GoMap.wsum_set_of_get_some (GoMap.wsum f) m p.Service service
        (service.set p.Region (region ++ [p.IPPrefix])) h1
      have e2 := GoMap.wsum_set_of_get_some f service p.Region region
        (region ++ [p.IPPrefix]) h2
      have e3 := hf region p.IPPrefix
      omega

theorem wsum_foldl_getRangesStep (f : List String → Nat)
    (hf : ∀ l x, f (l ++ [x]) = f l + f [x])
    (es : List PrefixEntry) (m : GoMap (GoMap (List String))) :
    GoMap.wsum (GoMap.wsum f) (es.foldl getRangesStep m) =
      GoMap.wsum (GoMap.wsum f) m + (es.map (fun e => f [e.IPPrefix])).sum := by
  induction es generalizing m with
  | nil => simp
  | cons p t ih =>
    simp only [List.foldl_cons, List.map_cons, List.sum_cons]
    rw [ih, wsum_getRangesStep f hf]
    omega

theorem sumOverKeys_getRanges (f : List String → Nat)
    (hf : ∀ l x, f (l ++ [x]) = f l + f [x]) (a : amazonIPRanges) :
    sumOverKeys f (getRanges a) = (a.Prefixes.map (fun e => f [e.IPPrefix])).sum := by
  rw [sumOverKeys_eq_wsum f _ _ (rangesInv_getRanges a)]
  unfold getRanges
  rw [wsum_foldl_getRangesStep f hf]
  simp [GoMap.wsum]

/-! ## The grouping claims -/

/-- The bucket of a service and a region that occur together, from the loop
invariant of `getRanges`. -/
theorem getRanges_bucket_aux (D : amazonIPRanges) (s r : String)
    (h : ∃ e ∈ D.Prefixes, e.Service = s ∧ e.Region = r) :
    ∃ service region, (getRanges D).get s = some service ∧ service.get r = some region ∧
      region = (D.Prefixes.filter
        (fun e => decide (e.Service = s ∧ e.Region = r))).map PrefixEntry.IPPrefix ∧
      region.length = D.Prefixes.countP (fun e => decide (e.Service = s ∧ e.Region = r)) := by
  have inv := rangesInv_getRanges D
  have hkey : s ∈ (getRanges D).keys := by
    obtain ⟨e, he, h1, _⟩ := h
    exact (inv.memKeys s).2 ⟨e, he, h1⟩
  rw [← GoMap.get_isSome_iff] at hkey
  obtain ⟨service, hs⟩ := Option.isSome_iff_exists.1 hkey
  have hb := inv.bucket s r
  rw [hs] at hb
  have hne : entriesOf D.Prefixes s r ≠ [] := by
    rw [Ne, entriesOf_eq_nil_iff]
    exact not_not.2 h
  simp only [Option.getD_some, hne, if_false] at hb
  refine ⟨service, entriesOf D.Prefixes s r, hs, hb, rfl, ?_⟩
  simp [entriesOf, List.countP_eq_length_filter]

/-- C1: for a service `s` and a region `r` that occur together in some entry
of `D.Prefixes`, `getRanges(D)[s][r]` is present and is exactly the list of the
`IPPrefix` values of the entries of `D.Prefixes` whose `Service` is `s` and
whose `Region` is `r`, in their order in `D.Prefixes`; its length is the number
of such entries. -/
theorem getRanges_bucket (D : amazonIPRanges) (s r : String)
    (h : ∃ e ∈ D.Prefixes, e.Service = s ∧ e.Region = r) :
    ∃ service region, (getRanges D).get s = some service ∧ service.get r = some region ∧
      region = (D.Prefixes.filter
        (fun e => decide (e.Service = s ∧ e.Region = r))).map PrefixEntry.IPPrefix ∧
      region.length = D.Prefixes.countP (fun e => decide (e.Service = s ∧ e.Region = r)) :=
  getRanges_bucket_aux D s r h

/-- Witness of C1 on `sampleDoc`, service `EC2`, region `us-east-1`. -/
theorem getRanges_bucket_witness :
    (∃ e ∈ sampleDoc.Prefixes, e.Service = "EC2" ∧ e.Region = "us-east-1") ∧
    ∃ service region, (getRanges sampleDoc).get "EC2" = some service ∧
      service.get "us-east-1" = some region ∧
      region = (sampleDoc.Prefixes.filter
        (fun e => decide (e.Service = "EC2" ∧ e.Region = "us-east-1"))).map
          PrefixEntry.IPPrefix ∧
      region.length =
        sampleDoc.Prefixes.countP (fun e => decide (e.Service = "EC2" ∧ e.Region = "us-east-1")) :=
  ⟨⟨entryEC2, by decide, by decide, by decide⟩,
    getRanges_bucket sampleDoc "EC2" "us-east-1" ⟨entryEC2, by decide, by decide, by decide⟩⟩

/-- C2: `s` is a key of the map `serviceRegionMap` built in
`printRegionServiceMap(D)` with `r` in its region list if and only if `s` is a
key of `getRanges(D)` and `r` is a key of `getRanges(D)[s]`; and the two maps
have the same service keys. -/
theorem serviceRegionMap_iff_getRanges (D : amazonIPRanges) (s r : String) :
    ((∃ regions, (serviceRegionMap D).get s = some regions ∧ r ∈ regions) ↔
      (∃ service, (getRanges D).get s = some service ∧ r ∈ service.keys)) ∧
    (s ∈ (serviceRegionMap D).keys ↔ s ∈ (getRanges D).keys) := by
  have inv1 := regionsInv_serviceRegionMap D
  have inv2 := rangesInv_getRanges D
  refine ⟨?_, ?_⟩
  · have hL : (∃ regions, (serviceRegionMap D).get s = some regions ∧ r ∈ regions) ↔
        ∃ e ∈ D.Prefixes, e.Service = s ∧ e.Region = r := by
      constructor
      · rintro ⟨regions, h1, h2⟩
        exact ((inv1.regions s regions h1).2 r).1 h2
      · rintro ⟨e, he, h1, h2⟩
        have hkey : s ∈ (serviceRegionMap D).keys := (inv1.memKeys s).2 ⟨e, he, h1⟩
        rw [← GoMap.get_isSome_iff] at hkey
        obtain ⟨regions, hs⟩ := Option.isSome_iff_exists.1 hkey
        exact ⟨regions, hs, ((inv1.regions s regions hs).2 r).2 ⟨e, he, h1, h2⟩⟩
    have hR : (∃ service, (getRanges D).get s = some service ∧ r ∈ service.keys) ↔
        ∃ e ∈ D.Prefixes, e.Service = s ∧ e.Region = r := by
      constructor
      · rintro ⟨service, h1, h2⟩
        have hb := inv2.bucket s r
        rw [h1] at hb
        rw [← GoMap.get_isSome_iff] at h2
        by_contra hc
        have hnil := (entriesOf_eq_nil_iff D.Prefixes s r).2 hc
        simp only [Option.getD_some, hnil, if_true] at hb
        rw [hb] at h2
        simp at h2
      · intro h
        obtain ⟨service, region, h1, h2, _⟩ := getRanges_bucket_aux D s r h
        refine ⟨service, h1, ?_⟩
        rw [← GoMap.get_isSome_iff, h2]
        rfl
    rw [hL, hR]
  · rw [inv1.memKeys, inv2.memKeys]

/-- C9: the region list stored for a service `s` in the map `serviceRegionMap`
built by `printRegionServiceMap(D)` has no duplicate, and its elements are
exactly the regions `r` for which some entry of `D` has `Service` `s` and
`Region` `r`. -/
theorem serviceRegionMap_regions (D : amazonIPRanges) (s : String) (regions : List String)
    (h : (serviceRegionMap D).get s = some regions) :
    regions.Nodup ∧
      ∀ r, r ∈ regions ↔ ∃ e ∈ D.Prefixes, e.Service = s ∧ e.Region = r :=
  (regionsInv_serviceRegionMap D).regions s regions h

/-- Witness of C9 on `sampleDoc`, where the pair `EC2`, `us-east-1` occurs
three times. -/
theorem serviceRegionMap_regions_witness :
    (serviceRegionMap sampleDoc).get "EC2" = some ["us-east-1", "eu-west-1"] ∧
    (["us-east-1", "eu-west-1"].Nodup ∧
      ∀ r, r ∈ ["us-east-1", "eu-west-1"] ↔
        ∃ e ∈ sampleDoc.Prefixes, e.Service = "EC2" ∧ e.Region = r) :=
  ⟨by decide, serviceRegionMap_regions sampleDoc "EC2" ["us-east-1", "eu-west-1"] (by decide)⟩

/-- C10: `getRanges(D)` drops no entry and duplicates none: the lengths of the
buckets `getRanges(D)[s][r]`, summed over the keys `s` and `r`, give the number
of entries of `D.Prefixes`, and every `IPPrefix` value occurs in the buckets in
total as often as in `D.Prefixes`. -/
theorem getRanges_total (D : amazonIPRanges) :
    sumOverKeys List.length (getRanges D) = D.Prefixes.length ∧
    ∀ ip : String, sumOverKeys (List.count ip) (getRanges D) =
      (D.Prefixes.map PrefixEntry.IPPrefix).count ip := by
  refine ⟨?_, ?_⟩
  · rw [sumOverKeys_getRanges List.length (by simp)]
    simp
  · intro ip
    rw [sumOverKeys_getRanges (List.count ip) (by intro l x; simp [List.count_append])]
    induction D.Prefixes with
    | nil => simp
    | cons p t ih =>
      rw [List.map_cons, List.sum_cons, ih, List.map_cons, List.count_cons]
      simp only [List.count_cons, List.count_nil]
      omega

/-! ## Lemmas on the run -/

theorem len_eq_zero_iff (s : String) : s.utf8ByteSize = 0 ↔ s = "" := by
  obtain ⟨cs⟩ := s
  simp [String.ext_iff]

theorem len_pos_iff (s : String) : s.utf8ByteSize > 0 ↔ s ≠ "" := by
  rw [Ne, ← len_eq_zero_iff]
  omega

theorem stdoutOf_append (a b : List Event) : stdoutOf (a ++ b) = stdoutOf a ++ stdoutOf b := by
  induction a with
  | nil => simp [stdoutOf]
  | cons e t ih =>
    cases e with
    | stdout s => simp [stdoutOf, ih, String.append_assoc]
    | httpGet u => simp [stdoutOf, ih]

theorem stdoutOf_lines (l : List String) :
    stdoutOf (l.map (fun val => Event.stdout (val ++ "\n"))) = printLines l := by
  induction l with
  | nil => rfl
  | cons v t ih => simp [stdoutOf, printLines, ih]

theorem stdoutOf_blocks (es : List (String × List String)) :
    stdoutOf (es.flatMap printBlock) = catalogBlocks es := by
  induction es with
  | nil => rfl
  | cons e t ih =>
    obtain ⟨service, regions⟩ := e
    rw [List.flatMap_cons, stdoutOf_append, ih]
    simp only [printBlock, stdoutOf, catalogBlocks, separator, String.append_assoc,
      String.append_empty]

theorem serviceRegionMap_foldl_congr (es es' : List PrefixEntry) (m : GoMap (List String))
    (h : es.map (fun e => (e.Service, e.Region)) = es'.map (fun e => (e.Service, e.Region))) :
    es.foldl serviceRegionMapStep m = es'.foldl serviceRegionMapStep m := by
  induction es generalizing es' m with
  | nil =>
    cases es' with
    | nil => rfl
    | cons _ _ => simp at h
  | cons p t ih =>
    cases es' with
    | nil => simp at h
    | cons q t' =>
      simp only [List.map_cons, List.cons.injEq, Prod.mk.injEq] at h
      obtain ⟨⟨h1, h2⟩, h3⟩ := h
      have hstep : serviceRegionMapStep m p = serviceRegionMapStep m q := by
        unfold serviceRegionMapStep
        rw [h1, h2]
      simp only [List.foldl_cons, hstep]
      exact ih t' _ h3

theorem main_of_flag_mismatch (w : World) (service region : String)
    (h : (service = "" ∧ region ≠ "") ∨ (service ≠ "" ∧ region = "")) :
    main w service region = ⟨[Event.stdout validationMessage], Ending.exit 1⟩ := by
  unfold main
  rw [if_pos]
  rcases h with ⟨h1, h2⟩ | ⟨h1, h2⟩
  · exact Or.inl ⟨(len_eq_zero_iff _).2 h1, (len_pos_iff _).2 h2⟩
  · exact Or.inr ⟨(len_pos_iff _).2 h1, (len_eq_zero_iff _).2 h2⟩

theorem main_of_flags_ok (w : World) (service region : String)
    (h : (service = "" ∧ region = "") ∨ (service ≠ "" ∧ region ≠ "")) :
    main w service region =
      match (getAmazonIPRanges w).2 with
      | Returned.panic msg => ⟨(getAmazonIPRanges w).1, Ending.panic msg⟩
      | Returned.ret (_, some err) =>
        ⟨(getAmazonIPRanges w).1 ++ [Event.stdout (err ++ "\n")], Ending.exit 1⟩
      | Returned.ret (none, none) => ⟨(getAmazonIPRanges w).1, Ending.panic nilDereference⟩
      | Returned.ret (some a, none) =>
        if service = "" ∧ region = "" then
          ⟨(getAmazonIPRanges w).1 ++ printRegionServiceMap w.mapOrder a, Ending.exit 0⟩
        else
          match (getRanges a).get service with
          | some s =>
            match s.get region with
            | some r =>
              ⟨(getAmazonIPRanges w).1 ++
                [Event.stdout ("Service: " ++ service ++ "\n"),
                 Event.stdout ("Region: " ++ region ++ "\n"),
                 Event.stdout "IP Ranges:\n"] ++
                r.map (fun val => Event.stdout (val ++ "\n")), Ending.exit 0⟩
            | none =>
              ⟨(getAmazonIPRanges w).1 ++
                [Event.stdout ("Region " ++ region ++ " not found\n")], Ending.exit 1⟩
          | none =>
            ⟨(getAmazonIPRanges w).1 ++
              [Event.stdout ("Service " ++ service ++ " not found\n")], Ending.exit 1⟩ := by
  unfold main
  rw [if_neg]
  · simp only [len_eq_zero_iff]
  · rcases h with ⟨h1, h2⟩ | ⟨h1, h2⟩
    · subst h1 h2
      decide
    · have := (len_pos_iff _).2 h1
      have := (len_pos_iff _).2 h2
      omega

/-! ## The claims on the run of `main` -/

/-- C3: when exactly one of the flags `service` and `region` is the empty
string, `main` prints that region and service must be specified together and
ends with exit status 1, and its run holds no HTTP request (`getAmazonIPRanges`
is not called); when both are empty or both are non-empty, `main` does not end
with this validation error: the run goes past the check and starts with the
request of `getAmazonIPRanges`. -/
theorem main_flag_validation (w : World) (service region : String) :
    ((service = "" ∧ region ≠ "") ∨ (service ≠ "" ∧ region = "") →
      main w service region =
        ⟨[Event.stdout "Region and Service must be specified together\n"], Ending.exit 1⟩ ∧
      (∀ url, Event.httpGet url ∉ (main w service region).trace) ∧
      (main w service region).ending.status = 1) ∧
    ((service = "" ∧ region = "") ∨ (service ≠ "" ∧ region ≠ "") →
      (main w service region).trace.head? = some (Event.httpGet ipRangesURL) ∧
      main w service region ≠
        ⟨[Event.stdout "Region and Service must be specified together\n"], Ending.exit 1⟩) := by
  refine ⟨?_, ?_⟩
  · intro h
    rw [main_of_flag_mismatch w service region h]
    refine ⟨rfl, ?_, rfl⟩
    intro url hmem
    simp at hmem
  · intro h
    have hhead : (main w service region).trace.head? = some (Event.httpGet ipRangesURL) := by
      rw [main_of_flags_ok w service region h]
      cases hres : (getAmazonIPRanges w).2 with
      | panic msg => simp [getAmazonIPRanges]
      | ret pair =>
        obtain ⟨a, err⟩ := pair
        cases err with
        | some e => simp [getAmazonIPRanges]
        | none =>
          cases a with
          | none => simp [getAmazonIPRanges]
          | some a =>
            simp only
            split
            · simp [getAmazonIPRanges]
            · split
              · split <;> simp [getAmazonIPRanges]
              · simp [getAmazonIPRanges]
    refine ⟨hhead, ?_⟩
    intro heq
    rw [heq] at hhead
    simp at hhead

/-- Witness of C3: only `-service` given, and no flag given. -/
theorem main_flag_validation_witness :
    (main (worldOf sampleDoc []) "EC2" "" =
        ⟨[Event.stdout "Region and Service must be specified together\n"], Ending.exit 1⟩ ∧
      (∀ url, Event.httpGet url ∉ (main (worldOf sampleDoc []) "EC2" "").trace) ∧
      (main (worldOf sampleDoc []) "EC2" "").ending.status = 1) ∧
    ((main (worldOf sampleDoc []) "" "").trace.head? = some (Event.httpGet ipRangesURL) ∧
      main (worldOf sampleDoc []) "" "" ≠
        ⟨[Event.stdout "Region and Service must be specified together\n"], Ending.exit 1⟩) :=
  ⟨(main_flag_validation (worldOf sampleDoc []) "EC2" "").1 (Or.inr ⟨by decide, rfl⟩),
    (main_flag_validation (worldOf sampleDoc []) "" "").2 (Or.inl ⟨rfl, rfl⟩)⟩

/-- C4: for a document `D` returned by `getAmazonIPRanges` and non-empty flags
`service` and `region`: if no entry of `D` has the service, the output of
`main` is the one line `Service <service> not found` and the exit status is 1,
whatever the region; if some entry has the service but none has the service
with the region, the output is the one line `Region <region> not found` and the
exit status is 1. Nothing else is printed in either case. -/
theorem main_not_found (w : World) (D : amazonIPRanges) (service region : String)
    (hs : service ≠ "") (hr : region ≠ "")
    (hD : (getAmazonIPRanges w).2 = Returned.ret (some D, none)) :
    ((¬ ∃ e ∈ D.Prefixes, e.Service = service) →
      main w service region =
        ⟨[Event.httpGet ipRangesURL, Event.stdout ("Service " ++ service ++ " not found\n")],
          Ending.exit 1⟩ ∧
      stdoutOf (main w service region).trace = "Service " ++ service ++ " not found\n") ∧
    ((∃ e ∈ D.Prefixes, e.Service = service) →
      (¬ ∃ e ∈ D.Prefixes, e.Service = service ∧ e.Region = region) →
      main w service region =
        ⟨[Event.httpGet ipRangesURL, Event.stdout ("Region " ++ region ++ " not found\n")],
          Ending.exit 1⟩ ∧
      stdoutOf (main w service region).trace = "Region " ++ region ++ " not found\n") := by
  have inv := rangesInv_getRanges D
  have hmain := main_of_flags_ok w service region (Or.inr ⟨hs, hr⟩)
  rw [hD] at hmain
  simp only [hs, false_and, if_false] at hmain
  refine ⟨?_, ?_⟩
  · intro hno
    have hnone : (getRanges D).get service = none := by
      rw [GoMap.get_eq_none_iff, inv.memKeys]
      exact hno
    rw [hnone] at hmain
    rw [hmain]
    simp [getAmazonIPRanges, stdoutOf]
  · intro hsome hno
    have hkey : service ∈ (getRanges D).keys := (inv.memKeys service).2 hsome
    rw [← GoMap.get_isSome_iff] at hkey
    obtain ⟨inner, hinner⟩ := Option.isSome_iff_exists.1 hkey
    have hb := inv.bucket service region
    rw [hinner] at hb
    have hnil := (entriesOf_eq_nil_iff D.Prefixes service region).2 hno
    simp only [Option.getD_some, hnil, if_true] at hb
    rw [hinner] at hmain
    simp only [hb] at hmain
    rw [hmain]
    simp [getAmazonIPRanges, stdoutOf]

/-- Witness of C4 on `sampleDoc`: the unknown service `RDS`, and the region
`us-east-1`, unknown under the known service `S3`. -/
theorem main_not_found_witness :
    (main (worldOf sampleDoc []) "RDS" "us-east-1" =
        ⟨[Event.httpGet ipRangesURL, Event.stdout ("Service " ++ "RDS" ++ " not found\n")],
          Ending.exit 1⟩ ∧
      stdoutOf (main (worldOf sampleDoc []) "RDS" "us-east-1").trace =
        "Service " ++ "RDS" ++ " not found\n") ∧
    (main (worldOf sampleDoc []) "S3" "us-east-1" =
        ⟨[Event.httpGet ipRangesURL, Event.stdout ("Region " ++ "us-east-1" ++ " not found\n")],
          Ending.exit 1⟩ ∧
      stdoutOf (main (worldOf sampleDoc []) "S3" "us-east-1").trace =
        "Region " ++ "us-east-1" ++ " not found\n") :=
  ⟨(main_not_found (worldOf sampleDoc []) sampleDoc "RDS" "us-east-1" (by decide) (by decide)
      rfl).1 (by decide),
    (main_not_found (worldOf sampleDoc []) sampleDoc "S3" "us-east-1" (by decide) (by decide)
      rfl).2 (by decide) (by decide)⟩

/-- C5: for a document `D` returned by `getAmazonIPRanges` and non-empty flags
`service` and `region` that occur together in some entry of `D`, the standard
output of `main` is exactly the lines `Service: <service>`, `Region: <region>`
and `IP Ranges:` followed by one line for every entry of `D` with that service
and region, holding its `IPPrefix`, in document order; `main` returns, so the
exit status is 0. -/
theorem main_lookup (w : World) (D : amazonIPRanges) (service region : String)
    (hs : service ≠ "") (hr : region ≠ "")
    (hD : (getAmazonIPRanges w).2 = Returned.ret (some D, none))
    (h : ∃ e ∈ D.Prefixes, e.Service = service ∧ e.Region = region) :
    stdoutOf (main w service region).trace =
      "Service: " ++ service ++ "\n" ++ ("Region: " ++ region ++ "\n") ++ "IP Ranges:\n" ++
        printLines ((D.Prefixes.filter
          (fun e => decide (e.Service = service ∧ e.Region = region))).map
            PrefixEntry.IPPrefix) ∧
    (main w service region).ending = Ending.exit 0 ∧
    (main w service region).ending.status = 0 := by
  have hmain := main_of_flags_ok w service region (Or.inr ⟨hs, hr⟩)
  rw [hD] at hmain
  simp only [hs, false_and, if_false] at hmain
  obtain ⟨inner, bucket, h1, h2, h3, _⟩ := getRanges_bucket_aux D service region h
  rw [h1] at hmain
  simp only [h2] at hmain
  rw [hmain]
  refine ⟨?_, rfl, rfl⟩
  subst h3
  rw [stdoutOf_append, stdoutOf_append, stdoutOf_lines]
  simp only [getAmazonIPRanges, stdoutOf, String.append_assoc, String.append_empty,
    String.empty_append]

/-- Witness of C5, the example of the specification: the document whose only
entry is `10.0.0.0/8`, `us-east-1`, `EC2`, queried with service `EC2` and
region `us-east-1`, prints `10.0.0.0/8` under the `IP Ranges:` header. -/
theorem main_lookup_witness :
    (stdoutOf (main (worldOf ⟨"", "", [entryEC2]⟩ []) "EC2" "us-east-1").trace =
      "Service: " ++ "EC2" ++ "\n" ++ ("Region: " ++ "us-east-1" ++ "\n") ++ "IP Ranges:\n" ++
        printLines (([entryEC2].filter
          (fun e => decide (e.Service = "EC2" ∧ e.Region = "us-east-1"))).map
            PrefixEntry.IPPrefix) ∧
      (main (worldOf ⟨"", "", [entryEC2]⟩ []) "EC2" "us-east-1").ending = Ending.exit 0 ∧
      (main (worldOf ⟨"", "", [entryEC2]⟩ []) "EC2" "us-east-1").ending.status = 0) ∧
    stdoutOf (main (worldOf ⟨"", "", [entryEC2]⟩ []) "EC2" "us-east-1").trace =
      "Service: EC2\nRegion: us-east-1\nIP Ranges:\n10.0.0.0/8\n" :=
  ⟨main_lookup (worldOf ⟨"", "", [entryEC2]⟩ []) ⟨"", "", [entryEC2]⟩ "EC2" "us-east-1"
      (by decide) (by decide) rfl ⟨entryEC2, by decide, by decide, by decide⟩,
    by decide⟩

/-- C6, the behaviour of the code: when `http.Get` fails and returns a nil
response, `getAmazonIPRanges` does not return an error but panics on `r.Body`,
and `main` prints nothing and ends with the status of a panic, 2; when reading
the body fails after bytes that decode, the read error is dropped and `main`
runs the catalog mode and exits with status 0. -/
theorem main_transport_failure :
    (getAmazonIPRanges worldGetFails).2 = Returned.panic nilDereference ∧
    main worldGetFails "" "" = ⟨[Event.httpGet ipRangesURL], Ending.panic nilDereference⟩ ∧
    stdoutOf (main worldGetFails "" "").trace = "" ∧
    (main worldGetFails "" "").ending.status = 2 ∧
    (getAmazonIPRanges worldReadFails).2 = Returned.ret (some emptyDoc, none) ∧
    (main worldReadFails "" "").ending = Ending.exit 0 := by
  refine ⟨rfl, by decide, by decide, by decide, rfl, by decide⟩

/-- C7: when the flags pass the check and the bytes read from the response do
not decode, `getAmazonIPRanges` returns the decode error and no document, and
`main` prints that error, and nothing else, and ends with exit status 1. -/
theorem main_decode_error (w : World) (service region : String) (resp : Response)
    (err : String)
    (hflags : (service = "" ∧ region = "") ∨ (service ≠ "" ∧ region ≠ ""))
    (hget : (w.httpGet ipRangesURL).1 = some resp)
    (hdec : w.Unmarshal resp.Body.data = Except.error err) :
    (getAmazonIPRanges w).2 = Returned.ret (none, some err) ∧
    main w service region =
      ⟨[Event.httpGet ipRangesURL, Event.stdout (err ++ "\n")], Ending.exit 1⟩ ∧
    stdoutOf (main w service region).trace = err ++ "\n" ∧
    (main w service region).ending.status = 1 := by
  have hres : (getAmazonIPRanges w).2 = Returned.ret (none, some err) := by
    simp only [getAmazonIPRanges, hget, hdec]
  have hmain := main_of_flags_ok w service region hflags
  rw [hres] at hmain
  simp only at hmain
  rw [hmain]
  refine ⟨hres, ?_, ?_, rfl⟩
  · simp [getAmazonIPRanges]
  · simp [getAmazonIPRanges, stdoutOf]

/-- Witness of C7: a body that is not JSON, with both flags empty and with
both flags given. -/
theorem main_decode_error_witness :
    ((getAmazonIPRanges worldBadJSON).2 =
        Returned.ret (none, some "invalid character '<' looking for beginning of value") ∧
      main worldBadJSON "" "" =
        ⟨[Event.httpGet ipRangesURL,
          Event.stdout ("invalid character '<' looking for beginning of value" ++ "\n")],
          Ending.exit 1⟩ ∧
      stdoutOf (main worldBadJSON "" "").trace =
        "invalid character '<' looking for beginning of value" ++ "\n" ∧
      (main worldBadJSON "" "").ending.status = 1) ∧
    ((getAmazonIPRanges worldBadJSON).2 =
        Returned.ret (none, some "invalid character '<' looking for beginning of value") ∧
      main worldBadJSON "EC2" "us-east-1" =
        ⟨[Event.httpGet ipRangesURL,
          Event.stdout ("invalid character '<' looking for beginning of value" ++ "\n")],
          Ending.exit 1⟩ ∧
      stdoutOf (main worldBadJSON "EC2" "us-east-1").trace =
        "invalid character '<' looking for beginning of value" ++ "\n" ∧
      (main worldBadJSON "EC2" "us-east-1").ending.status = 1) :=
  ⟨main_decode_error worldBadJSON "" "" ⟨⟨"<html>", none⟩⟩ _ (Or.inl ⟨rfl, rfl⟩) rfl rfl,
    main_decode_error worldBadJSON "EC2" "us-east-1" ⟨⟨"<html>", none⟩⟩ _
      (Or.inr ⟨by decide, by decide⟩) rfl rfl⟩

/-- C8 as stated fails on the document without entries: the output of the
catalog mode is not one header line followed by the blocks of the services,
since an empty line and a separator line stand between them. -/
theorem main_catalog_not_one_header_line :
    ¬ ∃ (header : String) (blocks : List (String × List String)),
      '\n' ∉ header.data ∧
      (∀ s, s ∈ blocks.map Prod.fst ↔ ∃ e ∈ emptyDoc.Prefixes, e.Service = s) ∧
      stdoutOf (main (worldOf emptyDoc []) "" "").trace =
        header ++ "\n" ++ catalogBlocks blocks := by
  rintro ⟨header, blocks, hnl, hkeys, hout⟩
  have hb : blocks = [] := by
    cases blocks with
    | nil => rfl
    | cons b t =>
      have := (hkeys b.1).1 (by simp)
      simp [emptyDoc] at this
  subst hb
  have hdata := congrArg String.data hout
  have hlhs : stdoutOf (main (worldOf emptyDoc []) "" "").trace =
      "Please run the application specifying -service and -region with a combination listed below:\n\n-----------------------\n" := by
    decide
  rw [hlhs] at hdata
  simp only [catalogBlocks, String.data_append, String.append_empty] at hdata
  have hdrop := congrArg List.dropLast hdata
  rw [List.dropLast_concat] at hdrop
  apply hnl
  rw [← hdrop]
  decide

/-- C8, amended: for a document `D` returned by `getAmazonIPRanges` and both
flags empty, `main` exits with status 0 and its standard output is the header
line, an empty line and a separator line, followed by one block for every
distinct service of `D`, each exactly once, in the order of the map iteration:
the line `Service: <name>`, the line `Regions: <list>` with the regions of the
service, each once, and the separator line. The output does not depend on the
`IPPrefix` fields of `D`. -/
theorem main_catalog (w : World) (D : amazonIPRanges)
    (hD : (getAmazonIPRanges w).2 = Returned.ret (some D, none)) :
    (main w "" "").ending = Ending.exit 0 ∧
    (∃ blocks : List (String × List String),
      stdoutOf (main w "" "").trace =
        "Please run the application specifying -service and -region with a combination listed below:\n" ++
          "\n" ++ "-----------------------\n" ++ catalogBlocks blocks ∧
      (blocks.map Prod.fst).Nodup ∧
      (∀ s, s ∈ blocks.map Prod.fst ↔ ∃ e ∈ D.Prefixes, e.Service = s) ∧
      (∀ s regions, (s, regions) ∈ blocks →
        regions.Nodup ∧ ∀ r, r ∈ regions ↔ ∃ e ∈ D.Prefixes, e.Service = s ∧ e.Region = r)) ∧
    (∀ D' : amazonIPRanges,
      D'.Prefixes.map (fun e => (e.Service, e.Region)) =
        D.Prefixes.map (fun e => (e.Service, e.Region)) →
      printRegionServiceMap w.mapOrder D' = printRegionServiceMap w.mapOrder D) := by
  have inv := regionsInv_serviceRegionMap D
  have hmain := main_of_flags_ok w "" "" (Or.inl ⟨rfl, rfl⟩)
  rw [hD] at hmain
  simp only [and_self, if_true] at hmain
  have hperm := GoMap.range_perm w.mapOrder (serviceRegionMap D)
  refine ⟨by rw [hmain], ⟨GoMap.range w.mapOrder (serviceRegionMap D), ?_, ?_, ?_, ?_⟩, ?_⟩
  · rw [hmain]
    simp only [printRegionServiceMap]
    rw [stdoutOf_append, stdoutOf_append, stdoutOf_blocks]
    simp only [getAmazonIPRanges, stdoutOf, catalogHeader, separator, String.append_assoc,
      String.append_empty, String.empty_append]
    rfl
  · exact ((hperm.map Prod.fst).nodup_iff).2 inv.nodupKeys
  · intro s
    rw [(hperm.map Prod.fst).mem_iff]
    exact inv.memKeys s
  · intro s regions hmem
    have hmem' : (s, regions) ∈ serviceRegionMap D := hperm.mem_iff.1 hmem
    exact inv.regions s regions (GoMap.get_of_mem _ inv.nodupKeys s regions hmem')
  · intro D' hproj
    unfold printRegionServiceMap serviceRegionMap
    rw [serviceRegionMap_foldl_congr D'.Prefixes D.Prefixes [] hproj]

set_option maxRecDepth 8000 in
/-- Witness of C8 on `sampleDoc`, with an iteration that visits `S3` first. -/
theorem main_catalog_witness :
    ((main (worldOf sampleDoc [1]) "" "").ending = Ending.exit 0 ∧
      (∃ blocks : List (String × List String),
        stdoutOf (main (worldOf sampleDoc [1]) "" "").trace =
          "Please run the application specifying -service and -region with a combination listed below:\n" ++
            "\n" ++ "-----------------------\n" ++ catalogBlocks blocks ∧
        (blocks.map Prod.fst).Nodup ∧
        (∀ s, s ∈ blocks.map Prod.fst ↔ ∃ e ∈ sampleDoc.Prefixes, e.Service = s) ∧
        (∀ s regions, (s, regions) ∈ blocks →
          regions.Nodup ∧
            ∀ r, r ∈ regions ↔ ∃ e ∈ sampleDoc.Prefixes, e.Service = s ∧ e.Region = r)) ∧
      (∀ D' : amazonIPRanges,
        D'.Prefixes.map (fun e => (e.Service, e.Region)) =
          sampleDoc.Prefixes.map (fun e => (e.Service, e.Region)) →
        printRegionServiceMap (worldOf sampleDoc [1]).mapOrder D' =
          printRegionServiceMap (worldOf sampleDoc [1]).mapOrder sampleDoc)) ∧
    stdoutOf (main (worldOf sampleDoc [1]) "" "").trace =
      "Please run the application specifying -service and -region with a combination listed below:\n\n-----------------------\nService: S3\nRegions: [eu-west-1]\n-----------------------\nService: EC2\nRegions: [us-east-1 eu-west-1]\n-----------------------\n" :=
  ⟨main_catalog (worldOf sampleDoc [1]) sampleDoc rfl, by decide⟩

end AmazonIPRanges
